import Mathlib

/-!
Shallow embedding of the drawdown-analysis pipeline (class `Drawdown` in
`Drawdown.py`). Storage values are modelled as rationals; fallible numpy
operations (indexing, `np.min`/`np.max`/`np.argmin` on empty selections)
are modelled with `Option`. Every array access the Python code performs —
including accesses inside eagerly-formatted debug messages — appears as an
`Option.bind`, in source order.
-/

attribute [local semireducible] Rat.sub Rat.add Rat.mul Rat.inv

namespace Drawdown

/-- The sentinel value 9.99 that the preprocessor prepends. -/
def sentinel : ℚ := 999 / 100

/-- Preprocessing step of `Drawdown.__init__` (lines 57-60): prepend the
sentinel when the first element differs from it. Reading `self.S[0]` on an
empty series raises, hence `Option`. -/
def preprocess (raw : List ℚ) : Option (List ℚ) :=
  Option.bind raw.head? fun x =>
  some (if x ≠ sentinel then sentinel :: raw else raw)

/-- `np.diff` on rationals: `out[k] = a[k+1] - a[k]`. -/
def diffQ (l : List ℚ) : List ℚ := List.zipWith (fun a b => b - a) l l.tail

/-- `np.diff` on integers. -/
def diffZ (l : List ℤ) : List ℤ := List.zipWith (fun a b => b - a) l l.tail

/-- `Drawdown.slope` (line 195): first difference of the series. -/
def slope (S : List ℚ) : List ℚ := diffQ S

/-- The indicator `(slope > 0).astype(int)` from `Drawdown.rev`. -/
def slope_sign (S : List ℚ) : List ℤ :=
  (slope S).map (fun x => if 0 < x then 1 else 0)

/-- `Drawdown.rev` (line 210): second difference pass, values in -1, 0, +1. -/
def rev (S : List ℚ) : List ℤ := diffZ (slope_sign S)

/-- `np.where(cond)[0]` over a list: ascending indices where the predicate
holds, with the count starting at `k`. -/
def idxWhereAux {α : Type} (p : α → Bool) : List α → ℕ → List ℕ
  | [], _ => []
  | x :: xs, k =>
      if p x then k :: idxWhereAux p xs (k + 1) else idxWhereAux p xs (k + 1)

/-- `np.where(cond)[0]` over a list: the ascending indices satisfying `p`. -/
def idxWhere {α : Type} (p : α → Bool) (l : List α) : List ℕ := idxWhereAux p l 0

/-- `np.min` over a list of rationals; raises on empty input, hence `Option`. -/
def list_min? : List ℚ → Option ℚ
  | [] => none
  | x :: xs => some (xs.foldl (fun a b => if b < a then b else a) x)

/-- `np.argmin` over a list of rationals: index of the first minimum;
the accumulator keeps the first occurrence. -/
def argminAux : List ℚ → ℕ → ℕ → ℚ → ℕ
  | [], _, best, _ => best
  | x :: xs, k, best, bv =>
      if x < bv then argminAux xs (k + 1) k x else argminAux xs (k + 1) best bv

/-- `np.argmin` over a list of rationals (`Option` for the empty case,
where numpy raises). -/
def argmin? : List ℚ → Option ℕ
  | [] => none
  | x :: xs => some (argminAux xs 1 0 x)

/-- `Drawdown.down_locs` (lines 212-225): a dummy location 0 is prepended to
the indices where `rev` is negative, then everything is shifted by one. -/
def down_locs (S : List ℚ) : List ℕ :=
  (0 :: idxWhere (fun z => decide (z < 0)) (rev S)).map (· + 1)

/-- `Drawdown.up_locs` (lines 227-236): indices where `rev` is positive,
shifted by one. -/
def up_locs (S : List ℚ) : List ℕ :=
  (idxWhere (fun z => decide (0 < z)) (rev S)).map (· + 1)

/-- `Drawdown.down_vals` (line 186): `self.S[self.down_locs()]`; numpy fancy
indexing raises when any index is out of bounds. -/
def down_vals (S : List ℚ) : Option (List ℚ) :=
  (down_locs S).mapM (fun n => S[n]?)

/-- `Drawdown.up_vals` (line 176): `self.S[self.up_locs()]`. -/
def up_vals (S : List ℚ) : Option (List ℚ) :=
  (up_locs S).mapM (fun n => S[n]?)

/-- `Drawdown.find_start` (lines 238-295): provisional start from the
lowest valley behind the nearest earlier peak at least as high, refined to
the rightmost zero strictly before the peak (the scan for the refinement
starts one position after the provisional start but the adopted index is
taken relative to the provisional start itself, as in lines 283-285). -/
def find_start (S : List ℚ) (dl : List ℕ) (dv : List ℚ) (ul : List ℕ)
    (uv : List ℚ) (i : ℕ) : Option (ℕ × ℚ) :=
  Option.bind dv[i]? fun pv =>
  Option.bind dl[i]? fun pl =>
  Option.bind
    (if (dv.take i).any (fun x => decide (pv ≤ x)) then
      Option.bind ((idxWhere (fun x => decide (pv ≤ x)) (dv.take i)).getLast?) fun idxPeak =>
      Option.bind dl[idxPeak]? fun _ =>
      Option.bind dv[idxPeak]? fun _ =>
      Option.bind (argmin? ((uv.take i).drop idxPeak)) fun am =>
      Option.bind uv[idxPeak + am]? fun _ =>
      ul[idxPeak + am]?
    else some 0) fun s0 =>
  Option.bind
    (if ((S.take pl).drop (s0 + 1)).any (fun x => decide (x = 0)) then
      Option.bind ((idxWhere (fun x => decide (x = 0)) ((S.take pl).drop s0)).getLast?) fun mz =>
      some (s0 + mz)
    else some s0) fun s1 =>
  Option.bind S[s1]? fun sv =>
  some (s1, sv)

/-- `Drawdown.find_end` (lines 297-382): mirror image of `find_start`, with
two quirks preserved verbatim: line 344 indexes `down_locs` by an
S-coordinate (`self._down_locs[nearest_zero_idx]`), and the no-zero branch
falls back to the smallest later valley, adopted only if strictly closer. -/
def find_end (S : List ℚ) (dl : List ℕ) (dv : List ℚ) (ul : List ℕ)
    (uv : List ℚ) (i : ℕ) : Option (ℕ × ℚ) :=
  Option.bind dv[i]? fun pv =>
  Option.bind dl[i]? fun pl =>
  Option.bind
    (if (dv.drop (i + 1)).any (fun x => decide (pv ≤ x)) then
      Option.bind ((idxWhere (fun x => decide (pv ≤ x)) (dv.drop (i + 1))).head?) fun w =>
      Option.bind dl[i + 1 + w]? fun _ =>
      Option.bind dv[i + 1 + w]? fun _ =>
      Option.bind (argmin? ((uv.take (i + 1 + w)).drop i)) fun am =>
      Option.bind uv[i + am]? fun _ =>
      ul[i + am]?
    else some (S.length - 1)) fun e0 =>
  Option.bind
    (if ((S.take e0).drop (pl + 1)).any (fun x => decide (x = 0)) then
      Option.bind ((idxWhere (fun x => decide (x = 0)) ((S.take e0).drop (pl + 1))).head?) fun w =>
      Option.bind dl[pl + 1 + w]? fun nzLocRaw =>
      some (if (if S.length - 1 < nzLocRaw then S.length - 1 else nzLocRaw) < e0
            then (if S.length - 1 < nzLocRaw then S.length - 1 else nzLocRaw) else e0)
    else
      Option.bind (list_min? ((uv.take e0).drop i)) fun mn =>
      Option.bind ((idxWhere (fun x => decide (x = mn)) ((uv.take e0).drop i)).head?) fun w =>
      Option.bind ul[i + w]? fun nmLocRaw =>
      some (if (if S.length - 1 < nmLocRaw then S.length - 1 else nmLocRaw) < e0
            then (if S.length - 1 < nmLocRaw then S.length - 1 else nmLocRaw) else e0)) fun e1 =>
  Option.bind S[e1]? fun ev =>
  some (e1, ev)

/-- Classification tag of a drawdown. -/
inductive DDType
  | filling
  | draining
deriving DecidableEq

/-- The record assembled by `Drawdown.find_drawdown`. -/
structure DD where
  i : ℕ
  peak_loc : ℕ
  peak_val : ℚ
  start_loc : ℕ
  start_val : ℚ
  end_loc : ℕ
  end_val : ℚ
  filling : ℚ
  draining : ℚ
  magnitude : ℚ
  type : DDType
  data : List ℚ
  duration : ℤ
deriving DecidableEq

/-- `Drawdown.find_drawdown` (lines 83-161): boundary resolution followed by
the filling/draining classification, with the boundary recomputation of the
smaller limb. Python `min(a, b)` is `if a <= b then a else b`. -/
def find_drawdown (S : List ℚ) (dl : List ℕ) (dv : List ℚ) (ul : List ℕ)
    (uv : List ℚ) (i : ℕ) : Option DD :=
  Option.bind dl[i]? fun pl =>
  Option.bind dv[i]? fun pv =>
  Option.bind (find_start S dl dv ul uv i) fun sp =>
  Option.bind (find_end S dl dv ul uv i) fun ep =>
  if (if pv - sp.2 ≤ pv - ep.2 then pv - sp.2 else pv - ep.2) = pv - sp.2 then
    Option.bind ((idxWhere (fun x => decide (x ≤ sp.2)) (S.drop pl)).head?) fun w =>
    Option.bind S[pl + w]? fun _ =>
    some { i := i, peak_loc := pl, peak_val := pv,
           start_loc := sp.1, start_val := sp.2,
           end_loc := pl + w, end_val := sp.2,
           filling := pv - sp.2, draining := pv - ep.2,
           magnitude := if pv - sp.2 ≤ pv - ep.2 then pv - sp.2 else pv - ep.2,
           type := DDType.filling,
           data := (S.take (pl + w + 1)).drop sp.1,
           duration := (pl + w : ℤ) - (sp.1 : ℤ) }
  else
    Option.bind ((idxWhere (fun x => decide (x ≤ ep.2)) (S.take pl)).getLast?) fun startLoc =>
    Option.bind S[startLoc]? fun _ =>
    some { i := i, peak_loc := pl, peak_val := pv,
           start_loc := startLoc, start_val := ep.2,
           end_loc := ep.1, end_val := ep.2,
           filling := pv - sp.2, draining := pv - ep.2,
           magnitude := if pv - sp.2 ≤ pv - ep.2 then pv - sp.2 else pv - ep.2,
           type := DDType.draining,
           data := (S.take (ep.1 + 1)).drop startLoc,
           duration := (ep.1 : ℤ) - (startLoc : ℤ) }

/-- `Drawdown.make_drawdowns` (lines 71-81): run `find_drawdown` for every
index from 1 to `min(len(down_vals), len(up_vals)) - 1`. -/
def make_drawdowns (S : List ℚ) (dl : List ℕ) (dv : List ℚ) (ul : List ℕ)
    (uv : List ℚ) : Option (List DD) :=
  (List.range' 1 (min dv.length uv.length - 1)).mapM (find_drawdown S dl dv ul uv)

/-- The whole analysis of `Drawdown.__init__` with `find_drawdowns=True`:
preprocess, derive the extrema arrays (in source order), then build the
catalog of drawdowns. -/
def drawdown_pipeline (raw : List ℚ) : Option (List DD) :=
  Option.bind (preprocess raw) fun S =>
  Option.bind (down_vals S) fun dv =>
  Option.bind (up_vals S) fun uv =>
  make_drawdowns S (down_locs S) dv (up_locs S) uv

/-! General facts about `idxWhere`: membership, sortedness, and the
extremal character of its first and last elements. -/

theorem mem_idxWhereAux {α : Type} {p : α → Bool} {l : List α} {k j : ℕ} :
    j ∈ idxWhereAux p l k ↔ ∃ t v, l[t]? = some v ∧ p v = true ∧ j = k + t := by
  induction l generalizing k with
  | nil => simp [idxWhereAux]
  | cons x xs ih =>
    by_cases hp : p x
    · simp only [idxWhereAux, hp, if_pos, List.mem_cons, ih]
      constructor
      · rintro (rfl | ⟨t, v, h1, h2, rfl⟩)
        · exact ⟨0, x, List.getElem?_cons_zero, hp, by omega⟩
        · exact ⟨t + 1, v, by rw [List.getElem?_cons_succ]; exact h1, h2, by omega⟩
      · rintro ⟨t, v, h1, h2, rfl⟩
        cases t with
        | zero =>
          left
          omega
        | succ t1 =>
          rw [List.getElem?_cons_succ] at h1
          exact Or.inr ⟨t1, v, h1, h2, by omega⟩
    · simp only [idxWhereAux, hp, if_neg, Bool.false_eq_true, ite_false, ih]
      constructor
      · rintro ⟨t, v, h1, h2, rfl⟩
        exact ⟨t + 1, v, by rw [List.getElem?_cons_succ]; exact h1, h2, by omega⟩
      · rintro ⟨t, v, h1, h2, rfl⟩
        cases t with
        | zero =>
          simp only [List.getElem?_cons_zero, Option.some.injEq] at h1
          subst h1
          exact absurd h2 (by simp [hp])
        | succ t1 =>
          rw [List.getElem?_cons_succ] at h1
          exact ⟨t1, v, h1, h2, by omega⟩

theorem mem_idxWhere {α : Type} {p : α → Bool} {l : List α} {j : ℕ} :
    j ∈ idxWhere p l ↔ ∃ v, l[j]? = some v ∧ p v = true := by
  rw [idxWhere, mem_idxWhereAux]
  constructor
  · rintro ⟨t, v, h1, h2, rfl⟩
    simpa using ⟨v, h1, h2⟩
  · rintro ⟨v, h1, h2⟩
    exact ⟨j, v, h1, h2, (Nat.zero_add j).symm⟩

theorem le_of_mem_idxWhereAux {α : Type} {p : α → Bool} {l : List α} {k j : ℕ}
    (h : j ∈ idxWhereAux p l k) : k ≤ j := by
  rw [mem_idxWhereAux] at h
  obtain ⟨t, v, _, _, rfl⟩ := h
  omega

theorem pairwise_idxWhereAux {α : Type} (p : α → Bool) (l : List α) (k : ℕ) :
    (idxWhereAux p l k).Pairwise (· < ·) := by
  induction l generalizing k with
  | nil => simp [idxWhereAux]
  | cons x xs ih =>
    by_cases hp : p x
    · simp only [idxWhereAux, hp, if_pos]
      refine List.Pairwise.cons ?_ (ih (k + 1))
      intro b hb
      have := le_of_mem_idxWhereAux hb
      omega
    · simpa [idxWhereAux, hp] using ih (k + 1)

theorem pairwise_idxWhere {α : Type} (p : α → Bool) (l : List α) :
    (idxWhere p l).Pairwise (· < ·) := pairwise_idxWhereAux p l 0

theorem mem_of_head?_own {α : Type} {l : List α} {a : α} (h : l.head? = some a) : a ∈ l := by
  cases l with
  | nil => cases h
  | cons x xs =>
    simp only [List.head?_cons, Option.some.injEq] at h
    simp [h.symm]

theorem mem_of_getLast?_own {α : Type} {l : List α} {a : α} (h : l.getLast? = some a) : a ∈ l := by
  induction l with
  | nil => cases h
  | cons x xs ih =>
    cases xs with
    | nil =>
      simp only [List.getLast?_singleton, Option.some.injEq] at h
      simp [h.symm]
    | cons y ys =>
      rw [List.getLast?_cons_cons] at h
      exact List.mem_cons_of_mem x (ih h)

theorem head?_min_of_pairwise {l : List ℕ} (hs : l.Pairwise (· < ·)) {a : ℕ}
    (ha : l.head? = some a) : ∀ b ∈ l, a ≤ b := by
  cases l with
  | nil => cases ha
  | cons x xs =>
    simp only [List.head?_cons, Option.some.injEq] at ha
    subst ha
    intro b hb
    rcases List.mem_cons.mp hb with rfl | hb2
    · exact le_refl b
    · exact Nat.le_of_lt ((List.pairwise_cons.mp hs).1 b hb2)

theorem getLast?_max_of_pairwise {l : List ℕ} (hs : l.Pairwise (· < ·)) {a : ℕ}
    (ha : l.getLast? = some a) : ∀ b ∈ l, b ≤ a := by
  induction l with
  | nil => cases ha
  | cons x xs ih =>
    cases xs with
    | nil =>
      simp only [List.getLast?_singleton, Option.some.injEq] at ha
      subst ha
      intro b hb
      simp only [List.mem_singleton] at hb
      omega
    | cons y ys =>
      rw [List.getLast?_cons_cons] at ha
      have htail := ih (List.pairwise_cons.mp hs).2 ha
      intro b hb
      rcases List.mem_cons.mp hb with rfl | hb2
      · have hxy := (List.pairwise_cons.mp hs).1 y (by simp)
        have hya := htail y (by simp)
        omega
      · exact htail b hb2

theorem any_iff_idxWhere_ne_nil {α : Type} (p : α → Bool) (l : List α) :
    l.any p = true ↔ idxWhere p l ≠ [] := by
  rw [List.any_eq_true]
  constructor
  · rintro ⟨v, hv, hpv⟩
    obtain ⟨n, hn⟩ := List.getElem?_of_mem hv
    have hmem : n ∈ idxWhere p l := mem_idxWhere.mpr ⟨v, hn, hpv⟩
    intro hnil
    rw [hnil] at hmem
    cases hmem
  · intro hne
    obtain ⟨j, hj⟩ := List.exists_mem_of_ne_nil _ hne
    obtain ⟨v, hv1, hv2⟩ := mem_idxWhere.mp hj
    exact ⟨v, List.getElem?_mem hv1, hv2⟩

theorem getLast?_isSome_of_ne_nil {α : Type} {l : List α} (h : l ≠ []) :
    ∃ a, l.getLast? = some a := by
  cases l with
  | nil => exact absurd rfl h
  | cons x xs => exact ⟨(x :: xs).getLast (by simp), List.getLast?_eq_getLast _ _⟩

theorem opt_bind_some {a b : Type} (x : a) (f : a → Option b) :
    Option.bind (some x) f = f x := rfl

theorem head?_isSome_of_ne_nil {a : Type} {l : List a} (h : l ≠ []) :
    ∃ x, l.head? = some x := by
  cases l with
  | nil => exact absurd rfl h
  | cons y ys => exact ⟨y, rfl⟩

/-- Both branches of `find_start` return the series value at the returned
location (line 295 of the source). -/
theorem find_start_val {S : List ℚ} {dl : List ℕ} {dv : List ℚ} {ul : List ℕ}
    {uv : List ℚ} {i sl : ℕ} {sv : ℚ}
    (h : find_start S dl dv ul uv i = some (sl, sv)) : S[sl]? = some sv := by
  simp only [find_start, Option.bind_eq_some] at h
  obtain ⟨pv, hpv, pl, hpl, s0, hs0, s1, hs1, sv2, hsv2, hfin⟩ := h
  have h1 : s1 = sl ∧ sv2 = sv := by
    constructor
    · exact congrArg Prod.fst (Option.some.inj hfin)
    · exact congrArg Prod.snd (Option.some.inj hfin)
  obtain ⟨rfl, rfl⟩ := h1
  exact hsv2

/-- Both branches of `find_end` return the series value at the returned
location (line 382 of the source). -/
theorem find_end_val {S : List ℚ} {dl : List ℕ} {dv : List ℚ} {ul : List ℕ}
    {uv : List ℚ} {i el : ℕ} {ev : ℚ}
    (h : find_end S dl dv ul uv i = some (el, ev)) : S[el]? = some ev := by
  simp only [find_end, Option.bind_eq_some] at h
  obtain ⟨pv, hpv, pl, hpl, e0, he0, e1, he1, ev2, hev2, hfin⟩ := h
  have h1 : e1 = el ∧ ev2 = ev := by
    constructor
    · exact congrArg Prod.fst (Option.some.inj hfin)
    · exact congrArg Prod.snd (Option.some.inj hfin)
  obtain ⟨rfl, rfl⟩ := h1
  exact hev2

/-- C4 amended core: excluding the synthetic entry, a true peak location is
never also a valley location. -/
theorem claim4_true_extrema_disjoint (S : List ℚ) (x : ℕ)
    (hx : x ∈ (down_locs S).tail) : x ∉ up_locs S := by
  intro hup
  simp only [down_locs, List.map_cons, List.tail_cons] at hx
  obtain ⟨t, ht, htx⟩ := List.mem_map.mp hx
  obtain ⟨u, hu, hux⟩ := List.mem_map.mp hup
  obtain ⟨v, hv1, hv2⟩ := mem_idxWhere.mp ht
  obtain ⟨w, hw1, hw2⟩ := mem_idxWhere.mp hu
  have htu : t = u := by omega
  subst htu
  rw [hv1] at hw1
  have hvw : v = w := Option.some.inj hw1
  subst hvw
  simp only [decide_eq_true_eq] at hv2 hw2
  omega

/-- C5 amended core: an index where `rev` is -1 yields a true peak recorded
at S-location t+1 (not t+2), an index where `rev` is +1 yields a valley at
t+1, and both location lists are strictly increasing. -/
theorem claim5_extrema_locations (S : List ℚ) (t : ℕ) :
    ((rev S)[t]? = some (-1) → t + 1 ∈ (down_locs S).tail) ∧
    ((rev S)[t]? = some 1 → t + 1 ∈ up_locs S) ∧
    ((down_locs S).tail).Pairwise (· < ·) ∧
    (up_locs S).Pairwise (· < ·) := by
  refine ⟨?_, ?_, ?_, ?_⟩
  · intro h
    simp only [down_locs, List.map_cons, List.tail_cons]
    exact List.mem_map.mpr ⟨t, mem_idxWhere.mpr ⟨-1, h, by decide⟩, rfl⟩
  · intro h
    simp only [up_locs]
    exact List.mem_map.mpr ⟨t, mem_idxWhere.mpr ⟨1, h, by decide⟩, rfl⟩
  · simp only [down_locs, List.map_cons, List.tail_cons]
    exact (pairwise_idxWhere _ _).map _ (by intro a b hab; omega)
  · simp only [up_locs]
    exact (pairwise_idxWhere _ _).map _ (by intro a b hab; omega)

/-- C8: the preprocessor prepends the sentinel exactly when the first
element differs from it, output length is n or n+1, and a second
application is a no-op. -/
theorem claim8_preprocess :
    (∀ (x : ℚ) (xs : List ℚ), x ≠ sentinel → preprocess (x :: xs) = some (sentinel :: x :: xs)) ∧
    (∀ (x : ℚ) (xs : List ℚ), x = sentinel → preprocess (x :: xs) = some (x :: xs)) ∧
    (∀ (l s : List ℚ), preprocess l = some s → s.length = l.length ∨ s.length = l.length + 1) ∧
    (∀ l : List ℚ, Option.bind (preprocess l) preprocess = preprocess l) := by
  refine ⟨?_, ?_, ?_, ?_⟩
  · intro x xs hx
    simp [preprocess, hx]
  · intro x xs hx
    simp [preprocess, hx]
  · intro l s h
    cases l with
    | nil => simp [preprocess] at h
    | cons x xs =>
      simp only [preprocess, List.head?_cons, opt_bind_some, Option.some.injEq] at h
      by_cases hx : x = sentinel
      · rw [if_neg (by simp [hx])] at h
        left
        rw [← h]
      · rw [if_pos hx] at h
        right
        rw [← h]
        simp
  · intro l
    cases l with
    | nil => rfl
    | cons x xs =>
      simp only [preprocess, List.head?_cons, opt_bind_some]
      by_cases hx : x = sentinel
      · rw [if_neg (by simp [hx])]
        simp only [preprocess, List.head?_cons, opt_bind_some]
        rw [if_neg (by simp [hx])]
      · rw [if_pos hx]
        simp only [preprocess, List.head?_cons, opt_bind_some]
        rw [if_neg (by simp)]

/-- C9: in both boundary searches the neighboring-peak comparison is `<=`
(at least as large): a peak whose value exactly equals the current peak
value makes the guard fire and is selectable as the bounding peak; the two
concrete conjuncts show an equal-valued peak actually selected by
`find_start` (index 1, value 10 = value of peak 2) and by `find_end`
(index 2, value 10 = value of peak 1) on the worked series. -/
theorem claim9_ge_tiebreak :
    (∀ (dv : List ℚ) (i j : ℕ) (v : ℚ), j < i → dv[j]? = some v → dv[i]? = some v →
      (dv.take i).any (fun x => decide (v ≤ x)) = true ∧
      ∃ j2 w, (idxWhere (fun x => decide (v ≤ x)) (dv.take i)).getLast? = some j2 ∧
        j ≤ j2 ∧ j2 < i ∧ dv[j2]? = some w ∧ v ≤ w) ∧
    (∀ (dv : List ℚ) (i k : ℕ) (v : ℚ), i < k → dv[k]? = some v → dv[i]? = some v →
      (dv.drop (i + 1)).any (fun x => decide (v ≤ x)) = true ∧
      ∃ w u, (idxWhere (fun x => decide (v ≤ x)) (dv.drop (i + 1))).head? = some w ∧
        i + 1 + w ≤ k ∧ dv[i + 1 + w]? = some u ∧ v ≤ u) ∧
    find_start [sentinel, 0, 10, 2, 10, 0] [1, 2, 4] [0, 10, 2] [1, 3] [0, 2] 2 = some (3, 2) ∧
    find_end [sentinel, 0, 10, 2, 10, 0] [1, 2, 4] [0, 10, 2] [1, 3] [0, 2] 1 = some (3, 2) := by
  refine ⟨?_, ?_, by decide, by decide⟩
  · intro dv i j v hji hj hi
    have hjt : (dv.take i)[j]? = some v := by
      rw [List.getElem?_take_of_lt hji]
      exact hj
    have hjmem : j ∈ idxWhere (fun x => decide (v ≤ x)) (dv.take i) :=
      mem_idxWhere.mpr ⟨v, hjt, by simp⟩
    have hne := List.ne_nil_of_mem hjmem
    refine ⟨(any_iff_idxWhere_ne_nil _ _).mpr hne, ?_⟩
    obtain ⟨j2, hj2⟩ := getLast?_isSome_of_ne_nil hne
    obtain ⟨w, hw1, hw2⟩ := mem_idxWhere.mp (mem_of_getLast?_own hj2)
    have hj2lt : j2 < i := by
      have hlen := (List.getElem?_eq_some.mp hw1).1
      rw [List.length_take] at hlen
      omega
    refine ⟨j2, w, hj2, getLast?_max_of_pairwise (pairwise_idxWhere _ _) hj2 j hjmem, hj2lt, ?_, ?_⟩
    · rw [List.getElem?_take_of_lt hj2lt] at hw1
      exact hw1
    · simpa using hw2
  · intro dv i k v hik hk hi
    have hkt : (dv.drop (i + 1))[k - i - 1]? = some v := by
      rw [List.getElem?_drop]
      have : i + 1 + (k - i - 1) = k := by omega
      rw [this]
      exact hk
    have hkmem : k - i - 1 ∈ idxWhere (fun x => decide (v ≤ x)) (dv.drop (i + 1)) :=
      mem_idxWhere.mpr ⟨v, hkt, by simp⟩
    have hne := List.ne_nil_of_mem hkmem
    refine ⟨(any_iff_idxWhere_ne_nil _ _).mpr hne, ?_⟩
    obtain ⟨w, hw⟩ := head?_isSome_of_ne_nil hne
    obtain ⟨u, hu1, hu2⟩ := mem_idxWhere.mp (mem_of_head?_own hw)
    have hwle : w ≤ k - i - 1 :=
      head?_min_of_pairwise (pairwise_idxWhere _ _) hw _ hkmem
    refine ⟨w, u, hw, by omega, ?_, ?_⟩
    · rw [List.getElem?_drop] at hu1
      exact hu1
    · simpa using hu2

/-- C10 amended core: in the draining branch, when the resolver start lies
strictly left of the peak, the selection scanned by the start recomputation
is non-empty (the resolver start location itself qualifies, since the
draining branch forces start_val to the larger end value), so `np.max`
cannot raise and the drawdown is produced. -/
theorem claim10_draining_nonempty
    {S : List ℚ} {dl : List ℕ} {dv : List ℚ} {ul : List ℕ} {uv : List ℚ}
    {i pl : ℕ} {pv : ℚ} {sl : ℕ} {sv : ℚ} {el : ℕ} {ev : ℚ}
    (hpl : dl[i]? = some pl) (hpv : dv[i]? = some pv)
    (hs : find_start S dl dv ul uv i = some (sl, sv))
    (he : find_end S dl dv ul uv i = some (el, ev))
    (hlt : sl < pl)
    (hbranch : ¬ (if pv - sv ≤ pv - ev then pv - sv else pv - ev) = pv - sv) :
    idxWhere (fun x => decide (x ≤ ev)) (S.take pl) ≠ [] ∧
    (find_drawdown S dl dv ul uv i).isSome = true := by
  have hsv : S[sl]? = some sv := find_start_val hs
  have hveq : sv < ev := by
    by_cases hc : pv - sv ≤ pv - ev
    · exact absurd (if_pos hc) hbranch
    · have := lt_of_not_le hc
      linarith
  have hslmem : sl ∈ idxWhere (fun x => decide (x ≤ ev)) (S.take pl) := by
    apply mem_idxWhere.mpr
    refine ⟨sv, ?_, by simp [le_of_lt hveq]⟩
    rw [List.getElem?_take_of_lt hlt]
    exact hsv
  have hne := List.ne_nil_of_mem hslmem
  refine ⟨hne, ?_⟩
  obtain ⟨j2, hj2⟩ := getLast?_isSome_of_ne_nil hne
  obtain ⟨w, hw1, hw2⟩ := mem_idxWhere.mp (mem_of_getLast?_own hj2)
  have hj2len : j2 < S.length := by
    have hlen := (List.getElem?_eq_some.mp hw1).1
    rw [List.length_take] at hlen
    omega
  obtain ⟨q, hSj2⟩ : ∃ q, S[j2]? = some q := ⟨_, List.getElem?_eq_getElem hj2len⟩
  rw [find_drawdown, hpl, opt_bind_some, hpv, opt_bind_some, hs, opt_bind_some,
      he, opt_bind_some]
  simp only [if_neg hbranch, hj2, opt_bind_some, hSj2, Option.isSome_some]

/-- C2 amended core: the classifier preserves peak bracketing. If the
resolver boundaries already satisfy start <= peak <= end, then after the
filling/draining recomputation the final record still satisfies
start_loc <= peak_loc <= end_loc, and its duration (end minus start) is
non-negative. -/
theorem claim2_invariant_after_classifier
    {S : List ℚ} {dl : List ℕ} {dv : List ℚ} {ul : List ℕ} {uv : List ℚ}
    {i : ℕ} {sl : ℕ} {sv : ℚ} {el : ℕ} {ev : ℚ} {r : DD}
    (hs : find_start S dl dv ul uv i = some (sl, sv))
    (he : find_end S dl dv ul uv i = some (el, ev))
    (hr : find_drawdown S dl dv ul uv i = some r)
    (h1 : sl ≤ r.peak_loc) (h2 : r.peak_loc ≤ el) :
    r.start_loc ≤ r.peak_loc ∧ r.peak_loc ≤ r.end_loc ∧
    r.duration = (r.end_loc : ℤ) - (r.start_loc : ℤ) ∧ 0 ≤ r.duration := by
  simp only [find_drawdown, Option.bind_eq_some] at hr
  obtain ⟨pl, hpl, pv, hpv, sp, hsp, ep, hep, hr⟩ := hr
  obtain rfl : sp = (sl, sv) := Option.some.inj (hsp.symm.trans hs)
  obtain rfl : ep = (el, ev) := Option.some.inj (hep.symm.trans he)
  dsimp only at hr
  by_cases hc : (if pv - sv ≤ pv - ev then pv - sv else pv - ev) = pv - sv
  · rw [if_pos hc, Option.bind_eq_some] at hr
    obtain ⟨w, hw, hr⟩ := hr
    rw [Option.bind_eq_some] at hr
    obtain ⟨q, hq, hrec⟩ := hr
    obtain rfl : _ = r := Option.some.inj hrec
    dsimp only at h1 h2 ⊢
    exact ⟨h1, by omega, rfl, by omega⟩
  · rw [if_neg hc, Option.bind_eq_some] at hr
    obtain ⟨j2, hj2, hr⟩ := hr
    rw [Option.bind_eq_some] at hr
    obtain ⟨q, hq, hrec⟩ := hr
    obtain rfl : _ = r := Option.some.inj hrec
    dsimp only at h1 h2 ⊢
    obtain ⟨w, hw1, hw2⟩ := mem_idxWhere.mp (mem_of_getLast?_own hj2)
    have hj2lt : j2 < pl := by
      have hlen := (List.getElem?_eq_some.mp hw1).1
      rw [List.length_take] at hlen
      omega
    exact ⟨by omega, h2, rfl, by omega⟩

/-- C6 amended core: whenever the magnitude equals the filling limb the
classifier marks the drawdown as filling, forces the end value to the start
value, and recomputes the end location as the smallest location at or after
the peak (the scan starts at the peak itself, not strictly after it) whose
series value is at most the forced end value; the concrete conjunct shows a
run in which the recomputed end location carries a series value different
from the forced end value, and coincides with the peak location. -/
theorem claim6_filling_classifier :
    (∀ (S : List ℚ) (dl : List ℕ) (dv : List ℚ) (ul : List ℕ) (uv : List ℚ) (i : ℕ) (r : DD),
      find_drawdown S dl dv ul uv i = some r → r.magnitude = r.filling →
      r.type = DDType.filling ∧ r.end_val = r.start_val ∧ r.peak_loc ≤ r.end_loc ∧
      (∃ q, S[r.end_loc]? = some q ∧ q ≤ r.end_val) ∧
      (∀ (l : ℕ) (q : ℚ), r.peak_loc ≤ l → l < r.end_loc → S[l]? = some q → r.end_val < q)) ∧
    (drawdown_pipeline [-10, -1, -5, -2, -8] =
      some [{ i := 1, peak_loc := 2, peak_val := -1, start_loc := 0, start_val := sentinel,
              end_loc := 2, end_val := sentinel, filling := -1 - sentinel, draining := 4,
              magnitude := -1 - sentinel, type := DDType.filling,
              data := [sentinel, -10, -1], duration := 2 }] ∧
     [sentinel, -10, -1, -5, -2, -8][2]? = some (-1 : ℚ) ∧ (sentinel : ℚ) ≠ -1) := by
  refine ⟨?_, by decide⟩
  intro S dl dv ul uv i r hr hm
  simp only [find_drawdown, Option.bind_eq_some] at hr
  obtain ⟨pl, hpl, pv, hpv, sp, hsp, ep, hep, hr⟩ := hr
  by_cases hc : (if pv - sp.2 ≤ pv - ep.2 then pv - sp.2 else pv - ep.2) = pv - sp.2
  · rw [if_pos hc, Option.bind_eq_some] at hr
    obtain ⟨w, hw, hr⟩ := hr
    rw [Option.bind_eq_some] at hr
    obtain ⟨q0, hq0, hrec⟩ := hr
    obtain rfl : _ = r := Option.some.inj hrec
    dsimp only
    refine ⟨rfl, rfl, Nat.le_add_right pl w, ?_, ?_⟩
    · obtain ⟨q, hq1, hq2⟩ := mem_idxWhere.mp (mem_of_head?_own hw)
      rw [List.getElem?_drop] at hq1
      exact ⟨q, hq1, by simpa using hq2⟩
    · intro l q hl1 hl2 hlq
      by_contra hnq
      push_neg at hnq
      have hmem : l - pl ∈ idxWhere (fun x => decide (x ≤ sp.2)) (S.drop pl) := by
        apply mem_idxWhere.mpr
        refine ⟨q, ?_, by simpa using hnq⟩
        rw [List.getElem?_drop]
        have hplm : pl + (l - pl) = l := by omega
        rw [hplm]
        exact hlq
      have := head?_min_of_pairwise (pairwise_idxWhere _ _) hw _ hmem
      omega
  · rw [if_neg hc, Option.bind_eq_some] at hr
    obtain ⟨j2, hj2, hr⟩ := hr
    rw [Option.bind_eq_some] at hr
    obtain ⟨q, hq, hrec⟩ := hr
    obtain rfl : _ = r := Option.some.inj hrec
    dsimp only at hm
    exact absurd hm hc

/-- C1: the worked scenario. Raw input [0, 10, 2, 10, 0] with sentinel 9.99
produces exactly one drawdown with the exact fields stated in the spec. -/
theorem claim1_worked_scenario :
    drawdown_pipeline [0, 10, 2, 10, 0] =
      some [{ i := 1, peak_loc := 2, peak_val := 10, start_loc := 1, start_val := 2,
              end_loc := 3, end_val := 2, filling := 10, draining := 8, magnitude := 8,
              type := DDType.draining, data := [0, 10, 2], duration := 2 }] := by decide

/-- C2 counterexample: on raw input [20, 20, 30, 5, 25, 0] the single
produced drawdown has start_loc = 2 greater than peak_loc = 1 and
duration = -1, so the claimed invariant fails on the code. -/
theorem claim2_counterexample :
    drawdown_pipeline [20, 20, 30, 5, 25, 0] =
      some [{ i := 1, peak_loc := 1, peak_val := 20, start_loc := 2, start_val := 20,
              end_loc := 1, end_val := 20, filling := 0, draining := 15, magnitude := 0,
              type := DDType.filling, data := [], duration := -1 }] ∧
    ¬ ((2 : ℕ) ≤ 1) ∧ ((-1 : ℤ) < 0) := by decide

/-- C2 witness: the worked-scenario drawdown brackets its peak at the
resolver stage, so the classifier-stage invariant holds for it. -/
theorem claim2_witness :
    (1 : ℕ) ≤ 2 ∧ (2 : ℕ) ≤ 3 ∧ (2 : ℤ) = (3 : ℤ) - (1 : ℤ) ∧ (0 : ℤ) ≤ (2 : ℤ) :=
  @claim2_invariant_after_classifier [sentinel, 0, 10, 2, 10, 0] [1, 2, 4] [0, 10, 2]
    [1, 3] [0, 2] 1 1 0 3 2
    ⟨1, 2, 10, 1, 2, 3, 2, 10, 8, 8, DDType.draining, [0, 10, 2], 2⟩
    (by decide) (by decide) (by decide) (by decide) (by decide)

/-- C3: on the length-1 input [9.99] the analysis does not complete: the
dummy peak location 1 is out of bounds for the length-1 series, so reading
`down_vals` fails (numpy IndexError), and the pipeline aborts instead of
returning an empty catalog; a length-1 input that does not start with the
sentinel (for example [5]) is preprocessed to length 2 and does produce the
empty catalog. -/
theorem claim3_short_series_crash :
    preprocess [sentinel] = some [sentinel] ∧
    down_locs [sentinel] = [1] ∧
    down_vals [sentinel] = none ∧
    drawdown_pipeline [sentinel] = none ∧
    drawdown_pipeline [5] = some [] := by decide

/-- C4 counterexample: for raw input [0, 5, 0] the synthetic peak location
1 is also a valley location, so peak and valley locations are not mutually
exclusive when the synthetic entry is included. -/
theorem claim4_counterexample :
    preprocess [0, 5, 0] = some [sentinel, 0, 5, 0] ∧
    1 ∈ down_locs [sentinel, 0, 5, 0] ∧
    1 ∈ up_locs [sentinel, 0, 5, 0] := by decide

/-- C4 witness: instantiation of the disjointness of true peak locations
and valley locations on the series preprocessed from [0, 5, 0]. -/
theorem claim4_witness :
    (2 ∈ (down_locs [sentinel, 0, 5, 0]).tail) ∧ 2 ∉ up_locs [sentinel, 0, 5, 0] :=
  ⟨by decide, claim4_true_extrema_disjoint [sentinel, 0, 5, 0] 2 (by decide)⟩

/-- C5 counterexample: on the preprocessed worked series, rev is -1 at
index 1 yet S-location 1+2 = 3 is not a recorded peak location, and rev is
+1 at index 0 yet S-location 0+2 = 2 is not a recorded valley location:
the recorded locations are t+1, not t+2. -/
theorem claim5_counterexample :
    (rev [sentinel, 0, 10, 2, 10, 0])[1]? = some (-1) ∧
    (1 + 2) ∉ down_locs [sentinel, 0, 10, 2, 10, 0] ∧
    (rev [sentinel, 0, 10, 2, 10, 0])[0]? = some 1 ∧
    (0 + 2) ∉ up_locs [sentinel, 0, 10, 2, 10, 0] := by decide

/-- C5 witness: instantiation at rev index 1 of the worked series, whose
peak is recorded at S-location 2 = 1+1. -/
theorem claim5_witness :
    ((rev [sentinel, 0, 10, 2, 10, 0])[1]? = some (-1)) ∧
    (1 + 1 ∈ (down_locs [sentinel, 0, 10, 2, 10, 0]).tail) :=
  ⟨by decide, (claim5_extrema_locations [sentinel, 0, 10, 2, 10, 0] 1).1 (by decide)⟩

/-- C6 counterexample: on raw input [-10, -1, -5, -2, -8] the produced
drawdown is filling-type with recomputed end_loc = 2 equal to peak_loc = 2,
not strictly greater than it, although the strictly later location 3 also
satisfies S <= end_val. -/
theorem claim6_counterexample :
    drawdown_pipeline [-10, -1, -5, -2, -8] =
      some [{ i := 1, peak_loc := 2, peak_val := -1, start_loc := 0, start_val := sentinel,
              end_loc := 2, end_val := sentinel, filling := -1 - sentinel, draining := 4,
              magnitude := -1 - sentinel, type := DDType.filling,
              data := [sentinel, -10, -1], duration := 2 }] ∧
    ¬ ((2 : ℕ) < 2) ∧
    [sentinel, -10, -1, -5, -2, -8][3]? = some (-5 : ℚ) ∧ ((-5 : ℚ) ≤ sentinel) := by decide

/-- C6 witness: instantiation of the filling-branch characterization on the
run from raw input [-10, -1, -5, -2, -8]. -/
theorem claim6_witness :
    ((⟨1, 2, -1, 0, sentinel, 2, sentinel, -1 - sentinel, 4, -1 - sentinel,
       DDType.filling, [sentinel, -10, -1], 2⟩ : DD)).type = DDType.filling :=
  (claim6_filling_classifier.1 [sentinel, -10, -1, -5, -2, -8] [1, 2, 4] [-10, -1, -2]
    [1, 3] [-10, -5] 1
    ⟨1, 2, -1, 0, sentinel, 2, sentinel, -1 - sentinel, 4, -1 - sentinel,
      DDType.filling, [sentinel, -10, -1], 2⟩
    (by decide) (by decide)).1

/-- C7: on raw input [0, 10, 0, 2, 1] the end search finds the zero at
S-location 3 (strictly between peak_loc+1 and the provisional end) but then
evaluates `down_locs[3]` — indexing the 3-element peak-location array with
an S-coordinate — which is out of bounds, so `find_end` and the whole
pipeline abort instead of adopting location 3 as the end. -/
theorem claim7_end_zero_bug :
    down_locs [sentinel, 0, 10, 0, 2, 1] = [1, 2, 4] ∧
    down_vals [sentinel, 0, 10, 0, 2, 1] = some [0, 10, 2] ∧
    up_locs [sentinel, 0, 10, 0, 2, 1] = [1, 3] ∧
    up_vals [sentinel, 0, 10, 0, 2, 1] = some [0, 0] ∧
    [sentinel, 0, 10, 0, 2, 1][3]? = some (0 : ℚ) ∧
    find_end [sentinel, 0, 10, 0, 2, 1] [1, 2, 4] [0, 10, 2] [1, 3] [0, 0] 1 = none ∧
    drawdown_pipeline [0, 10, 0, 2, 1] = none := by decide

/-- C8 witness: a first element different from the sentinel gets the
sentinel prepended. -/
theorem claim8_witness :
    ((3 : ℚ) ≠ sentinel) ∧ preprocess [3] = some [sentinel, 3] :=
  ⟨by decide, claim8_preprocess.1 3 [] (by decide)⟩

/-- C9 witness: with two equal peak values the left-search guard fires for
the tie. -/
theorem claim9_witness :
    (([(10 : ℚ), 10]).take 1).any (fun x => decide ((10 : ℚ) ≤ x)) = true :=
  (claim9_ge_tiebreak.1 [10, 10] 1 0 10 (by decide) (by decide) (by decide)).1

/-- C10 counterexample: on raw input [20, 2, 30, 5, 40, 0] the drawdown at
peak index 1 is draining (magnitude comes from the draining limb), its
resolver start location 2 lies right of the peak location 1, the selection
scanned by the start recomputation is empty, and the computation aborts
(numpy ValueError on an empty `np.max`). -/
theorem claim10_counterexample :
    find_start [sentinel, 20, 2, 30, 5, 40, 0] [1, 1, 3, 5] [20, 20, 30, 40] [2, 4] [2, 5] 1 =
      some (2, 2) ∧
    find_end [sentinel, 20, 2, 30, 5, 40, 0] [1, 1, 3, 5] [20, 20, 30, 40] [2, 4] [2, 5] 1 =
      some (4, 5) ∧
    ¬ ((if (20 : ℚ) - 2 ≤ 20 - 5 then (20 : ℚ) - 2 else 20 - 5) = 20 - 2) ∧
    idxWhere (fun x => decide (x ≤ (5 : ℚ))) ([sentinel, 20, 2, 30, 5, 40, 0].take 1) = [] ∧
    find_drawdown [sentinel, 20, 2, 30, 5, 40, 0] [1, 1, 3, 5] [20, 20, 30, 40] [2, 4] [2, 5] 1 =
      none ∧
    drawdown_pipeline [20, 2, 30, 5, 40, 0] = none := by decide

/-- C10 witness: instantiation on the worked scenario, a draining drawdown
whose resolver start lies strictly left of the peak, so the recomputation
selection is non-empty and the drawdown is produced. -/
theorem claim10_witness :
    idxWhere (fun x => decide (x ≤ (2 : ℚ))) ([sentinel, 0, 10, 2, 10, 0].take 2) ≠ [] ∧
    (find_drawdown [sentinel, 0, 10, 2, 10, 0] [1, 2, 4] [0, 10, 2] [1, 3] [0, 2] 1).isSome =
      true :=
  @claim10_draining_nonempty [sentinel, 0, 10, 2, 10, 0] [1, 2, 4] [0, 10, 2] [1, 3] [0, 2]
    1 2 10 1 0 3 2 (by decide) (by decide) (by decide) (by decide) (by decide) (by decide)

end Drawdown
